import Mathlib

/-!
Verification of `src/masks2contours/utils.py` against its specification.

The Python module is shallowly embedded in Lean:
* numpy `m x n` matrices of rationals-valued data become `List (List ℚ)`,
  2-D points become `ℝ × ℝ`, 3-D points `ℝ × ℝ × ℝ`;
* Euclidean norms are embedded over `ℝ` with `Real.sqrt` (the Python code
  computes with floats; the real-number idealization is used throughout);
* functions that can raise a Python exception return `Except String _`;
* `np.argmin` / `np.argmax` (first index attaining the extremum),
  `np.mean`, `np.std` (with `ddof`), `np.interp`, `np.linspace`,
  `np.delete` (integer-index and boolean-mask forms) are modelled by the
  `np...`-prefixed definitions below, each documented with the numpy
  behaviour it reproduces.
-/

/-! ## Row-set operations over rational matrices (`deleteHelper`, `sharedRows`) -/

/-- Embedding of `deleteHelper(arr, indices, axis=0)` for a list of integer
indices: removes the entries of `arr` whose position occurs in `indices`.
The Python helper returns `arr` unchanged when `arr` is empty (np.delete
would fail there); an empty index list removes nothing, exactly as
`np.delete` does. -/
def deleteHelper {α : Type} (arr : List α) (indices : List ℕ) : List α :=
  if arr.isEmpty then arr
  else (arr.enum.filter (fun p => decide (p.1 ∉ indices))).map Prod.snd

/-- Embedding of `deleteHelper(arr, mask, axis=0)` when the `indices`
argument is a boolean array, as in `interpTime`: `np.delete` treats a
boolean array as a mask and removes the entries where the mask is true. -/
def deleteHelperBool {α : Type} (arr : List α) (mask : List Bool) : List α :=
  if arr.isEmpty then arr
  else if mask.isEmpty then arr
  else ((arr.zip mask).filter (fun p => !p.2)).map Prod.fst

/-- Embedding of `np.linspace(a, b, n)`: `n` evenly spaced samples from `a`
to `b` inclusive (a single sample is `[a]`, zero samples give `[]`). -/
def npLinspace (a b : ℚ) (n : ℕ) : List ℚ :=
  if n = 1 then [a]
  else (List.range n).map (fun k => a + (b - a) * k / (n - 1))

/-- Embedding of `np.interp(x, xp, fp)` for one query point `x`: piecewise
linear interpolation through the sample points `(xp i, fp i)` with `xp`
ascending, clamping to `fp.head` below the first sample and to the last
value above the last sample. -/
def npInterp (x : ℚ) : List ℚ → List ℚ → ℚ
  | x0 :: xp, y0 :: yp =>
    match xp, yp with
    | x1 :: _, y1 :: _ =>
      if x ≤ x0 then y0
      else if x ≤ x1 then y0 + (y1 - y0) * (x - x0) / (x1 - x0)
      else npInterp x xp yp
    | _, _ => y0
  | _, _ => 0

/-- Monadic map over `Except`, mirroring a Python `for` loop that raises on
the first failing iteration and otherwise collects its results in order. -/
def mapExcept {α : Type} (f : ℕ → Except String α) : List ℕ → Except String (List α)
  | [] => .ok []
  | x :: xs =>
    match f x with
    | .error e => .error e
    | .ok v =>
      match mapExcept f xs with
      | .error e => .error e
      | .ok vs => .ok (v :: vs)

/-- Body of the `interpTime` loop for one `(i, j)` pair: the time samples
`col = oldValvePts[:, i, j]` have their zero entries removed
(`deleteHelper` with the boolean mask `col == 0`); if samples remain they
are linearly re-interpolated onto `newNumInterpSamples` query points,
otherwise the source executes `np.zeros(newNumInterpSamples, 1)`, which
passes `1` as the `dtype` argument of `np.zeros` and therefore raises
`TypeError: Cannot interpret '1' as a data type`. -/
def interpTimeSlice (col : List ℚ) (newNumInterpSamples : ℕ) : Except String (List ℚ) :=
  let sampledValues := deleteHelperBool col (col.map (fun x => decide (x = 0)))
  if sampledValues.length ≠ 0 then
    .ok ((npLinspace 1 100 newNumInterpSamples).map
      (fun q => npInterp q (npLinspace 1 100 sampledValues.length) sampledValues))
  else
    .error "TypeError: np.zeros(newNumInterpSamples, 1) passes 1 as a dtype"

/-- Embedding of `interpTime(oldValvePts, newNumInterpSamples)`.
`oldValvePts` is a frame-major 3-axis array `[frame][i][j]`; the result is
returned slice-major, so `(interpTime old n)[i][j]` is the interpolated
time series `result[:, i, j]` of the source.  The loops run over
`i < shape[1]` and `j < shape[2]` in source order, and the first failing
pair aborts the whole call, as raising does in Python.  (The degenerate
`shape[0] = 1` case, where `np.squeeze` produces a 0-d array and
`np.delete` fails on it, is outside this model.) -/
def interpTime (oldValvePts : List (List (List ℚ))) (newNumInterpSamples : ℕ) :
    Except String (List (List (List ℚ))) :=
  mapExcept (fun i =>
    mapExcept (fun j =>
      interpTimeSlice (oldValvePts.map (fun frame => (frame.getD i []).getD j 0))
        newNumInterpSamples)
      (List.range ((oldValvePts.headD []).headD []).length))
    (List.range (oldValvePts.headD []).length)

/-- Total number of scalar entries of a rational matrix, i.e. numpy's
`arr.size` for a list-of-rows matrix. -/
def npSizeRows (arr : List (List ℚ)) : ℕ := (arr.map List.length).sum

/-- Column count (`arr.shape[1]`) of a list-of-rows matrix, read off the
first row as numpy's rectangular shape would give it. -/
def numCols (arr : List (List ℚ)) : ℕ := (arr.headD []).length

/-- One iteration of the nested scan in `sharedRows`: at outer row `i` and
inner row `j`, skip when `i` is already matched in `arr1` or `j` in
`arr2`, otherwise record the pair when the rows are equal. -/
def srStep (arr1 arr2 : List (List ℚ)) (i : ℕ) (s : List ℕ × List ℕ) (j : ℕ) :
    List ℕ × List ℕ :=
  if i ∈ s.1 ∨ j ∈ s.2 then s
  else if arr1.getD i [] = arr2.getD j [] then (s.1 ++ [i], s.2 ++ [j])
  else s

/-- Inner loop of `sharedRows`: scan all rows `j` of `arr2` for row `i`. -/
def srInner (arr1 arr2 : List (List ℚ)) (i : ℕ) (s : List ℕ × List ℕ) :
    List ℕ × List ℕ :=
  (List.range arr2.length).foldl (srStep arr1 arr2 i) s

/-- The pair `(sharedIndicesArr1, sharedIndicesArr2)` built by the nested
loops of `sharedRows`. -/
def sharedIndices (arr1 arr2 : List (List ℚ)) : List ℕ × List ℕ :=
  (List.range arr1.length).foldl (fun s i => srInner arr1 arr2 i s) ([], [])

/-- Embedding of `sharedRows(arr1, arr2)`: if either array is empty
(numpy `size == 0`) three empty results are returned; otherwise a
column-count mismatch raises `ValueError`; otherwise the nested
first-match scan produces the matched rows of `arr1` together with the two
index lists. -/
def sharedRows (arr1 arr2 : List (List ℚ)) :
    Except String (List (List ℚ) × List ℕ × List ℕ) :=
  if npSizeRows arr1 = 0 ∨ npSizeRows arr2 = 0 then .ok ([], [], [])
  else if numCols arr1 ≠ numCols arr2 then
    .error "ValueError: Arrays must have same number of columns."
  else
    .ok ((sharedIndices arr1 arr2).1.map (fun i => arr1.getD i []),
      (sharedIndices arr1 arr2).1, (sharedIndices arr1 arr2).2)

/-! ## Real-valued geometry: distances, thresholds, argmin/argmax -/

open scoped Classical

/-- A 2-D point (one row of an `m x 2` ndarray). -/
abbrev Pt : Type := ℝ × ℝ

/-- Euclidean norm of the difference of two 2-D points,
`np.linalg.norm(p - q)`. -/
noncomputable def normDiff (p q : Pt) : ℝ :=
  Real.sqrt ((p.1 - q.1) ^ 2 + (p.2 - q.2) ^ 2)

/-- Embedding of `np.mean` on a 1-D array. -/
noncomputable def npMean (l : List ℝ) : ℝ := l.sum / l.length

/-- Embedding of `np.var(l, ddof)`: mean squared deviation with divisor
`len(l) - ddof` (`ddof = 0` is numpy's default, `ddof = 1` is Bessel
corrected). -/
noncomputable def npVar (l : List ℝ) (ddof : ℕ) : ℝ :=
  (l.map (fun x => (x - npMean l) ^ 2)).sum / ((l.length : ℝ) - (ddof : ℝ))

/-- Embedding of `np.std(l, ddof)`. -/
noncomputable def npStd (l : List ℝ) (ddof : ℕ) : ℝ := Real.sqrt (npVar l ddof)

/-- Embedding of `np.argmax`: index of the first occurrence of the maximum
(0 on the empty list, where numpy would raise). -/
noncomputable def npArgmax : List ℝ → ℕ
  | [] => 0
  | x :: xs => if ∀ y ∈ xs, y ≤ x then 0 else npArgmax xs + 1

/-- Embedding of `np.argmin`: index of the first occurrence of the minimum
(0 on the empty list, where numpy would raise). -/
noncomputable def npArgmin : List ℝ → ℕ
  | [] => 0
  | x :: xs => if ∀ y ∈ xs, x ≤ y then 0 else npArgmin xs + 1

/-- Embedding of `pointDistances(points)`: entry `i < m - 1` is the
distance from point `i` to point `i + 1`, and the last entry wraps from
the last point to the first. -/
noncomputable def pointDistances (points : List Pt) : List ℝ :=
  (List.range points.length).map (fun i =>
    if i = points.length - 1 then normDiff (points.getD i (0, 0)) (points.getD 0 (0, 0))
    else normDiff (points.getD (i + 1) (0, 0)) (points.getD i (0, 0)))

/-- The `upperThreshold` of `getRVinsertIndices`: mean plus three
Bessel-corrected (`ddof = 1`) standard deviations of the cyclic
distances. -/
noncomputable def rvUpperThreshold (points : List Pt) : ℝ :=
  npMean (pointDistances points) + 3 * npStd (pointDistances points) 1

/-- Embedding of `getRVinsertIndices(points)`: if some cyclic distance
exceeds `rvUpperThreshold`, return the index of the largest distance
paired with its neighbour (`[0, n-1]` when the largest gap is the wrap),
otherwise return the empty array. -/
noncomputable def getRVinsertIndices (points : List Pt) : List ℕ :=
  if ∃ d ∈ pointDistances points, d > rvUpperThreshold points then
    if npArgmax (pointDistances points) = points.length - 1 then
      [0, npArgmax (pointDistances points)]
    else
      [npArgmax (pointDistances points), npArgmax (pointDistances points) + 1]
  else []

/-- The `removeFarPoints` threshold: mean plus two standard deviations
(numpy default `ddof = 0`) of the cyclic distances. -/
noncomputable def farThreshold (points : List Pt) : ℝ :=
  npMean (pointDistances points) + 2 * npStd (pointDistances points) 0

/-- The `far_indices` of `removeFarPoints`:
`np.nonzero(distances > threshold)[0]`, i.e. the ascending list of indices
whose distance exceeds the threshold. -/
noncomputable def farIndices (points : List Pt) : List ℕ :=
  (((pointDistances points).enum.filter
    (fun p => decide (p.2 > farThreshold points))).map Prod.fst)

/-- Numpy `np.size(oldPoints)` of an `m x 2` ndarray: the TOTAL number of
scalar entries, `2 * m` — not the number of rows.  The wrap test of
`removeFarPoints` compares an index into `distances` with this value
minus one. -/
def npSize (points : List Pt) : ℕ := 2 * points.length

/-- One iteration of the `indicesToRemove` loop of `removeFarPoints` at
loop counter `i`: append `far[i]` when `far[i] == 0` and the last flagged
index equals `np.size(oldPoints) - 1`, else append `far[i+1]` when two
consecutive flagged indices are adjacent (the subtraction is on Python
ints, hence over `ℤ` here). -/
def farStep (far : List ℕ) (sz : ℕ) (acc : List ℕ) (i : ℕ) : List ℕ :=
  if far.getD i 0 = 0 ∧ far.getLast? = some (sz - 1) then acc ++ [far.getD i 0]
  else if (far.getD (i + 1) 0 : ℤ) - (far.getD i 0 : ℤ) = 1 then acc ++ [far.getD (i + 1) 0]
  else acc

/-- The full `indicesToRemove` list of `removeFarPoints`: the loop counter
runs over `0 .. far.length - 2`. -/
def farLoopRemove (far : List ℕ) (sz : ℕ) : List ℕ :=
  (List.range (far.length - 1)).foldl (farStep far sz) []

/-- Embedding of `removeFarPoints(oldPoints)`: at most 2 points are
returned unchanged; otherwise, when more than one distance index is
flagged, the points collected by the loop are deleted, else the input is
returned unchanged. -/
noncomputable def removeFarPoints (oldPoints : List Pt) : List Pt :=
  if oldPoints.length ≤ 2 then oldPoints
  else if 1 < (farIndices oldPoints).length then
    deleteHelper oldPoints (farLoopRemove (farIndices oldPoints) (npSize oldPoints))
  else oldPoints

/-- Minimum of a list of reals with a default for the empty list,
mirroring `np.min`-style folding. -/
noncomputable def listMinD : List ℝ → ℝ → ℝ
  | [], d => d
  | x :: xs, _ => xs.foldl min x

/-- Distance returned by `KDTree(sep_points).query(q)` for one query
point: the exact distance from `q` to its nearest neighbour among the
reference points (scipy's k-d tree performs exact nearest-neighbour
search). -/
noncomputable def kdQueryDist (sep_points : List Pt) (q : Pt) : ℝ :=
  listMinD (sep_points.map (fun r => normDiff q r)) 0

/-- Embedding of `getLAinsert(inserts, sep_points)`: build the k-d tree on
`sep_points`, query it with every insert, and return
`inserts[np.argmin(dist)]` — the insert whose nearest-reference distance
is smallest. -/
noncomputable def getLAinsert (inserts sep_points : List Pt) : Pt :=
  inserts.getD (npArgmin (inserts.map (kdQueryDist sep_points))) (0, 0)

/-- Embedding of `removeZerorows(arr)`: keep the rows with at least one
non-zero coordinate (`arr[np.any(arr, axis=1), :]`). -/
noncomputable def removeZerorows (pts : List Pt) : List Pt :=
  pts.filter (fun p => decide (¬(p.1 = 0 ∧ p.2 = 0)))

/-- Row-major flattening of `scipy.spatial.distance.cdist(a, b)`: entry
`i * b.length + j` is the distance between `a[i]` and `b[j]`, which is the
order `np.argmin` scans. -/
noncomputable def cdistFlat (a b : List Pt) : List ℝ :=
  (a.map (fun p => b.map (fun q => normDiff p q))).flatten

/-- Embedding of `calcApex(epiPts1, epiPts2)`: both inputs have their
all-zero rows removed, the row index of the flat argmin of the pairwise
distance matrix is recovered with `np.unravel_index` (flat index divided
by the column count), and that index is then applied to the ORIGINAL
`epiPts1`, exactly as the source does.  (The dead `apexIndex.shape != ()`
branch of the source is omitted: `np.unravel_index` of a scalar always
yields scalar components.) -/
noncomputable def calcApex (epiPts1 epiPts2 : List Pt) : Pt :=
  epiPts1.getD
    (npArgmin (cdistFlat (removeZerorows epiPts1) (removeZerorows epiPts2)) /
      (removeZerorows epiPts2).length)
    (0, 0)

/-! ## Line fitting in 3-D (`fitLine3D`) -/

/-- A 3-D point (one row of an `m x 3` ndarray). -/
abbrev V3 : Type := ℝ × ℝ × ℝ

/-- Componentwise difference of 3-D points. -/
noncomputable def subV3 (a b : V3) : V3 := (a.1 - b.1, a.2.1 - b.2.1, a.2.2 - b.2.2)

/-- Dot product of 3-D vectors, as in `tmp @ coeff`. -/
noncomputable def dotV3 (a b : V3) : ℝ := a.1 * b.1 + a.2.1 * b.2.1 + a.2.2 * b.2.2

/-- The row `b_i * coeff + colMeans` of `np.outer(coeff, b).transpose() +
colMeans`. -/
noncomputable def smulAddV3 (t : ℝ) (c m : V3) : V3 :=
  (t * c.1 + m.1, t * c.2.1 + m.2.1, t * c.2.2 + m.2.2)

/-- Euclidean norm of a 3-D vector. -/
noncomputable def norm3 (a : V3) : ℝ := Real.sqrt (a.1 ^ 2 + a.2.1 ^ 2 + a.2.2 ^ 2)

/-- The per-column means `colMeans` of `fitLine3D` (the source iterates the
three columns `range(0, 2 + 1)`). -/
noncomputable def meanV3 (points : List V3) : V3 :=
  ((points.map (fun p => p.1)).sum / points.length,
   (points.map (fun p => p.2.1)).sum / points.length,
   (points.map (fun p => p.2.2)).sum / points.length)

/-- Embedding of `fitLine3D(points)`.  The source contains NO input-size
check of any kind: it centres the points, runs `np.linalg.svd` on the
centred matrix, takes `coeff = vh[0, :]`, projects each centred point onto
`coeff` and measures the reconstruction error.  The SVD output `vh[0, :]`
is an orthogonal-factor row that has no exact closed form over the input,
so it is passed here as the explicit parameter `coeff`; every property
proved below holds for EVERY value of `coeff`, hence for the one numpy
computes.  Residual `i` is
`norm(b_i * coeff + colMeans - points_i)` with `b_i = (points_i - colMeans) . coeff`. -/
noncomputable def fitLine3D (points : List V3) (coeff : V3) : List ℝ :=
  (List.range points.length).map (fun i =>
    norm3 (subV3
      (smulAddV3 (dotV3 (subV3 (points.getD i (0, 0, 0)) (meanV3 points)) coeff)
        coeff (meanV3 points))
      (points.getD i (0, 0, 0))))

/-! ## Normal field of a 2-D polyline (`lineNormals2D`) -/

/-- Default segment topology `[[0, 1], [1, 2], ..., [m-2, m-1]]` built by
`np.column_stack` when `lineIndices` is absent or empty. -/
def defaultLineIndices (numVertices : ℕ) : List (ℕ × ℕ) :=
  (List.range (numVertices - 1)).map (fun k => (k, k + 1))

/-- Machine epsilon `np.spacing(1)`, exactly `2 ^ (-52)` for IEEE
doubles. -/
noncomputable def npSpacing1 : ℝ := 1 / 2 ^ 52

/-- Componentwise sum of 2-D points (`D = D1 + D2`). -/
noncomputable def padd (p q : Pt) : Pt := (p.1 + q.1, p.2 + q.2)

/-- Componentwise difference of 2-D points. -/
noncomputable def psub (p q : Pt) : Pt := (p.1 - q.1, p.2 - q.2)

/-- Scaling of one tangent row of `DT`: divide both components by
`max(LL^2, eps)` where `LL` is the row's Euclidean length. -/
noncomputable def scaleTangent (v : Pt) : Pt :=
  (v.1 / max (Real.sqrt (v.1 ^ 2 + v.2 ^ 2) ^ 2) npSpacing1,
   v.2 / max (Real.sqrt (v.1 ^ 2 + v.2 ^ 2) ^ 2) npSpacing1)

/-- Fancy-index row assignment `target[idxs, :] = vals` on a zero matrix:
sequential `List.set`, so a duplicated index keeps the last value, as
numpy does. -/
noncomputable def scatterRows (base : List Pt) (idxs : List ℕ) (vals : List Pt) : List Pt :=
  (idxs.zip vals).foldl (fun acc p => acc.set p.1 p.2) base

/-- The arithmetic core of `lineNormals2D` on `m ≥ 2` vertices with
segment list `li`: scaled tangents are scattered into `D1` (by segment
start) and `D2` (by segment end), summed, then normalized with the
`max(., eps)` floor; `perpendicular` swaps and negates the components. -/
noncomputable def lineNormalsCore (vertices : List Pt) (li : List (ℕ × ℕ))
    (perpendicular : Bool) : List Pt :=
  let DT := li.map (fun ab =>
    scaleTangent (psub (vertices.getD ab.1 (0, 0)) (vertices.getD ab.2 (0, 0))))
  let D1 := scatterRows (List.replicate vertices.length (0, 0)) (li.map Prod.fst) DT
  let D2 := scatterRows (List.replicate vertices.length (0, 0)) (li.map Prod.snd) DT
  let D := List.zipWith padd D1 D2
  D.map (fun v =>
    if perpendicular then
      (-v.2 / max (Real.sqrt (v.1 ^ 2 + v.2 ^ 2)) npSpacing1,
       v.1 / max (Real.sqrt (v.1 ^ 2 + v.2 ^ 2)) npSpacing1)
    else
      (v.1 / max (Real.sqrt (v.1 ^ 2 + v.2 ^ 2)) npSpacing1,
       v.2 / max (Real.sqrt (v.1 ^ 2 + v.2 ^ 2)) npSpacing1))

/-- Embedding of `lineNormals2D(vertices, lineIndices, perpendicular)`.
The source first raises `ValueError` when the vertex count is non-zero and
below 2, then returns the empty array for 0 vertices, then substitutes the
default consecutive-index topology when `lineIndices` is `None` or empty,
and finally computes the normal field (which involves no further failure
point for in-range indices). -/
noncomputable def lineNormals2D (vertices : List Pt)
    (lineIndices : Option (List (ℕ × ℕ))) (perpendicular : Bool) :
    Except String (List Pt) :=
  if vertices.length ≠ 0 ∧ vertices.length < 2 then
    .error "ValueError: vertices must have either 0 rows or 2 or more rows"
  else if vertices.length = 0 then .ok []
  else
    .ok (lineNormalsCore vertices
      (match lineIndices with
       | none => defaultLineIndices vertices.length
       | some li => if li.isEmpty then defaultLineIndices vertices.length else li)
      perpendicular)

/-! ## Concrete inputs used in the claims -/

/-- The cyclic point sequence of the end-to-end scenario for
`getRVinsertIndices`. -/
noncomputable def c2pts : List Pt := [(0, 0), (1, 0), (2, 0), (3, 10)]

/-- Twenty collinear points whose cyclic distance list is
`[11, 1, ..., 1, 11]`: the walk jumps from 0 to 11, climbs by unit steps
to 20, then descends by unit steps back to 11, so both the first gap and
the wrap-around gap equal 11 while all 18 interior gaps equal 1. -/
noncomputable def c4pts : List Pt :=
  [(0, 0), (11, 0), (12, 0), (13, 0), (14, 0), (15, 0), (16, 0), (17, 0),
   (18, 0), (19, 0), (20, 0), (19, 0), (18, 0), (17, 0), (16, 0), (15, 0),
   (14, 0), (13, 0), (12, 0), (11, 0)]

/-- Invariant of the `sharedRows` scan state: the two index lists have
equal length, and each recorded pair points at equal, in-range rows of the
two matrices. -/
def SRPairs (arr1 arr2 : List (List ℚ)) (s : List ℕ × List ℕ) : Prop :=
  s.1.length = s.2.length ∧
  ∀ k, k < s.1.length →
    s.1.getD k 0 < arr1.length ∧ s.2.getD k 0 < arr2.length ∧
    arr1.getD (s.1.getD k 0) [] = arr2.getD (s.2.getD k 0) []

/-! ## Theorems -/

/-- C1: the claim states that `interpTime` returns normally, with an
all-zero slice of the requested length, whenever every sample of a
`(landmark, coordinate)` pair is zero, and that missing data never causes
an error.  The code instead reaches `np.zeros(newNumInterpSamples, 1)` in
exactly that situation, which passes `1` as the `dtype` argument of
`np.zeros` and raises `TypeError`: on the 2-frame track whose single pair
is entirely zero, the call fails instead of producing `[0, 0, 0]`. -/
theorem interpTime_allzero_raises :
    interpTime [[[0]], [[0]]] 3 =
      Except.error "TypeError: np.zeros(newNumInterpSamples, 1) passes 1 as a dtype" :=
  rfl

/-- C10: in `sharedRows` the empty-input check precedes the column-count
check: if either matrix is empty (numpy `size == 0`) three empty results
are returned without raising, even when the column counts differ, and an
error is raised exactly when both inputs are non-empty and the column
counts differ. -/
theorem sharedRows_empty_precedence (arr1 arr2 : List (List ℚ)) :
    ((npSizeRows arr1 = 0 ∨ npSizeRows arr2 = 0) →
      sharedRows arr1 arr2 = Except.ok ([], [], [])) ∧
    ((∃ e, sharedRows arr1 arr2 = Except.error e) ↔
      (npSizeRows arr1 ≠ 0 ∧ npSizeRows arr2 ≠ 0 ∧ numCols arr1 ≠ numCols arr2)) := by
  constructor
  · intro h
    simp [sharedRows, h]
  · unfold sharedRows
    split_ifs with h1 h2
    · simp
      tauto
    · simp
      tauto
    · simp
      tauto

/-- Witness for `sharedRows_empty_precedence`: the first input `[[]]` is a
1-row, 0-column matrix (numpy size 0) while the second has 2 columns, yet
three empty results are returned without an error. -/
theorem sharedRows_empty_precedence_witness :
    (npSizeRows [[]] = 0 ∨ npSizeRows [[(1 : ℚ), 2]] = 0) ∧
    sharedRows [[]] [[(1 : ℚ), 2]] = Except.ok ([], [], []) :=
  ⟨Or.inl (by decide),
    (sharedRows_empty_precedence [[]] [[(1 : ℚ), 2]]).1 (Or.inl (by decide))⟩

/-- C7: `lineNormals2D` (with the default segment topology) raises
`ValueError` if and only if it is given exactly 1 vertex; with 0 vertices
it returns the empty array, and with 2 or more vertices it returns
normally. -/
theorem lineNormals2D_error_iff_one_vertex :
    (lineNormals2D [] Option.none false = Except.ok []) ∧
    ∀ (vertices : List Pt) (perpendicular : Bool),
      (∃ e, lineNormals2D vertices Option.none perpendicular = Except.error e) ↔
        vertices.length = 1 := by
  constructor
  · rfl
  · intro vertices perpendicular
    unfold lineNormals2D
    split_ifs with h1 h2
    · constructor
      · intro _
        omega
      · intro _
        exact ⟨_, rfl⟩
    · simp only [reduceCtorEq, exists_false, false_iff]
      omega
    · simp only [reduceCtorEq, exists_false, false_iff]
      omega

/-- For every single-point input and every direction `coeff`, `fitLine3D`
returns the one-element residual vector `[0]`: the centred point is the
zero vector, its projection reconstructs the centroid, i.e. the point
itself, so the reconstruction error is zero and no failure occurs. -/
theorem fitLine3D_single (p : V3) (coeff : V3) : fitLine3D [p] coeff = [0] := by
  have hm : meanV3 [p] = p := by
    simp [meanV3]
  simp [fitLine3D, hm, subV3, dotV3, smulAddV3, norm3, List.range_succ]

/-- C5 (amended): `fitLine3D` contains no input-size check at all; for
every input (and every SVD direction `coeff`) it returns a residual vector
of the same length as the input, and in particular a single point yields
the normal result `[0]` rather than any error. -/
theorem fitLine3D_length_and_single :
    (∀ (points : List V3) (coeff : V3), (fitLine3D points coeff).length = points.length) ∧
    (∀ (p : V3) (coeff : V3), fitLine3D [p] coeff = [0]) := by
  refine ⟨fun points coeff => ?_, fun p coeff => fitLine3D_single p coeff⟩
  simp [fitLine3D]

/-- C5 (counterexample): the claim says `fitLine3D` raises a dimension
error whenever fewer than 2 points are given; on the single point
`(1, 2, 3)` (with the direction numpy's SVD returns for the zero centred
matrix, `vh[0,:] = (1, 0, 0)`) the function instead returns the normal
one-element residual vector `[0]`. -/
theorem fitLine3D_single_point_no_error :
    fitLine3D [((1 : ℝ), 2, 3)] (1, 0, 0) = [0] :=
  fitLine3D_single ((1 : ℝ), 2, 3) (1, 0, 0)

/-- An in-range `getD` is a member of the list. -/
theorem getD_mem_of_lt {α : Type} (l : List α) (k : ℕ) (h : k < l.length) (d : α) :
    l.getD k d ∈ l := by
  rw [List.getD_eq_getElem l d h]
  exact List.getElem_mem h

/-- A member of a list is an in-range `getD`. -/
theorem mem_getD_of_mem {α : Type} {l : List α} {a : α} (h : a ∈ l) (d : α) :
    ∃ k, k < l.length ∧ l.getD k d = a := by
  obtain ⟨i, hi, hget⟩ := List.mem_iff_getElem.mp h
  exact ⟨i, hi, by rw [List.getD_eq_getElem l d hi, hget]⟩

/-- `sharedRows` scan step: either the state is unchanged, or exactly the
pair `(i, j)` of equal rows is appended. -/
theorem srStep_eq_or (arr1 arr2 : List (List ℚ)) (i : ℕ) (s : List ℕ × List ℕ) (j : ℕ) :
    srStep arr1 arr2 i s j = s ∨
    (srStep arr1 arr2 i s j = (s.1 ++ [i], s.2 ++ [j]) ∧
      arr1.getD i [] = arr2.getD j [] ∧ i ∉ s.1 ∧ j ∉ s.2) := by
  unfold srStep
  split_ifs with h1 h2
  · exact Or.inl rfl
  · exact Or.inr ⟨rfl, h2, fun hi => h1 (Or.inl hi), fun hj => h1 (Or.inr hj)⟩
  · exact Or.inl rfl

/-- A step for a row `i` that is already matched changes nothing. -/
theorem srStep_skip (arr1 arr2 : List (List ℚ)) (i : ℕ) (s : List ℕ × List ℕ) (j : ℕ)
    (h : i ∈ s.1) : srStep arr1 arr2 i s j = s := by
  unfold srStep
  rw [if_pos (Or.inl h)]

/-- The inner fold for an already-matched row `i` changes nothing. -/
theorem srFold_skip1 (arr1 arr2 : List (List ℚ)) (i : ℕ) :
    ∀ (js : List ℕ) (s : List ℕ × List ℕ), i ∈ s.1 →
      js.foldl (srStep arr1 arr2 i) s = s
  | [], _, _ => rfl
  | j :: js, s, h => by
    rw [List.foldl_cons, srStep_skip arr1 arr2 i s j h, srFold_skip1 arr1 arr2 i js s h]

/-- The inner fold over inner rows that are all already matched changes
nothing. -/
theorem srFold_skip2 (arr1 arr2 : List (List ℚ)) (i : ℕ) :
    ∀ (js : List ℕ) (s : List ℕ × List ℕ), (∀ j ∈ js, j ∈ s.2) →
      js.foldl (srStep arr1 arr2 i) s = s
  | [], _, _ => rfl
  | j :: js, s, h => by
    have hstep : srStep arr1 arr2 i s j = s := by
      unfold srStep
      rw [if_pos (Or.inr (h j (by simp)))]
    rw [List.foldl_cons, hstep, srFold_skip2 arr1 arr2 i js s (fun j' hj' => h j' (by simp [hj']))]

/-- Membership in the first index list survives one scan step. -/
theorem srStep_mem1 (arr1 arr2 : List (List ℚ)) (i : ℕ) (s : List ℕ × List ℕ) (j : ℕ)
    {x : ℕ} (h : x ∈ s.1) : x ∈ (srStep arr1 arr2 i s j).1 := by
  rcases srStep_eq_or arr1 arr2 i s j with he | ⟨he, -⟩ <;> rw [he]
  · exact h
  · exact List.mem_append_left _ h

/-- Membership in the first index list survives the inner fold. -/
theorem srFold_mem1 (arr1 arr2 : List (List ℚ)) (i : ℕ) {x : ℕ} :
    ∀ (js : List ℕ) (s : List ℕ × List ℕ), x ∈ s.1 →
      x ∈ (js.foldl (srStep arr1 arr2 i) s).1
  | [], _, h => h
  | j0 :: js, s, h => by
    rw [List.foldl_cons]
    exact srFold_mem1 arr1 arr2 i js _ (srStep_mem1 arr1 arr2 i s j0 h)

/-- Membership in the first index list survives the outer fold. -/
theorem srOuter_mem1 (arr1 arr2 : List (List ℚ)) {x : ℕ} :
    ∀ (is : List ℕ) (s : List ℕ × List ℕ), x ∈ s.1 →
      x ∈ (is.foldl (fun s i => srInner arr1 arr2 i s) s).1
  | [], _, h => h
  | i :: is, s, h => by
    rw [List.foldl_cons]
    exact srOuter_mem1 arr1 arr2 is _ (srFold_mem1 arr1 arr2 i _ s h)

/-- One scan step preserves the pairing invariant. -/
theorem srStep_pairs {arr1 arr2 : List (List ℚ)} {i : ℕ} {s : List ℕ × List ℕ} {j : ℕ}
    (h : SRPairs arr1 arr2 s) (hi : i < arr1.length) (hj : j < arr2.length) :
    SRPairs arr1 arr2 (srStep arr1 arr2 i s j) := by
  rcases srStep_eq_or arr1 arr2 i s j with he | ⟨he, heq, -, -⟩ <;> rw [he]
  · exact h
  · obtain ⟨hlen, hall⟩ := h
    refine ⟨by simp [hlen], fun k hk => ?_⟩
    simp only [List.length_append, List.length_cons, List.length_nil] at hk
    rcases Nat.lt_or_ge k s.1.length with hklt | hkge
    · have h2 : k < s.2.length := hlen ▸ hklt
      rw [List.getD_append _ _ _ _ hklt, List.getD_append _ _ _ _ h2]
      exact hall k hklt
    · have hkeq : k = s.1.length := by omega
      have h1 : [i].getD (k - s.1.length) 0 = i := by
        rw [hkeq]
        simp
      have h2 : [j].getD (k - s.2.length) 0 = j := by
        rw [hkeq, hlen]
        simp
      rw [List.getD_append_right _ _ _ _ hkge, List.getD_append_right _ _ _ _ (hlen ▸ hkge),
        h1, h2]
      exact ⟨hi, hj, heq⟩

/-- The inner fold preserves the pairing invariant when all scanned inner
indices are in range. -/
theorem srFold_pairs {arr1 arr2 : List (List ℚ)} {i : ℕ} (hi : i < arr1.length) :
    ∀ (js : List ℕ) (s : List ℕ × List ℕ), (∀ j ∈ js, j < arr2.length) →
      SRPairs arr1 arr2 s → SRPairs arr1 arr2 (js.foldl (srStep arr1 arr2 i) s)
  | [], _, _, h => h
  | j :: js, s, hjs, h => by
    rw [List.foldl_cons]
    exact srFold_pairs hi js _ (fun j' hj' => hjs j' (by simp [hj']))
      (srStep_pairs h hi (hjs j (by simp)))

/-- `srInner` preserves the pairing invariant. -/
theorem srInner_pairs {arr1 arr2 : List (List ℚ)} {i : ℕ} (hi : i < arr1.length)
    {s : List ℕ × List ℕ} (h : SRPairs arr1 arr2 s) :
    SRPairs arr1 arr2 (srInner arr1 arr2 i s) :=
  srFold_pairs hi _ s (fun _ hj => List.mem_range.mp hj) h

/-- The outer fold preserves the pairing invariant when all scanned outer
indices are in range. -/
theorem srOuter_pairs {arr1 arr2 : List (List ℚ)} :
    ∀ (is : List ℕ) (s : List ℕ × List ℕ), (∀ i ∈ is, i < arr1.length) →
      SRPairs arr1 arr2 s →
      SRPairs arr1 arr2 (is.foldl (fun s i => srInner arr1 arr2 i s) s)
  | [], _, _, h => h
  | i :: is, s, his, h => by
    rw [List.foldl_cons]
    exact srOuter_pairs is _ (fun i' hi' => his i' (by simp [hi']))
      (srInner_pairs (his i (by simp)) h)

/-- The final `sharedIndices` state satisfies the pairing invariant. -/
theorem sharedIndices_pairs (arr1 arr2 : List (List ℚ)) :
    SRPairs arr1 arr2 (sharedIndices arr1 arr2) :=
  srOuter_pairs _ ([], []) (fun i hi => List.mem_range.mp hi)
    ⟨rfl, fun k hk => absurd hk (by simp)⟩

/-- Completeness of the inner scan: if row `i` of `arr1` is not yet
matched and some scanned row `j0` of `arr2` equals it, then after the
inner fold the value of row `i` occurs among the matched rows of `arr1`
(either row `i` itself was just matched, or an equal row was matched
earlier). -/
theorem srFold_complete (arr1 arr2 : List (List ℚ)) (i : ℕ) (hi : i < arr1.length) :
    ∀ (js : List ℕ) (s : List ℕ × List ℕ), (∀ j ∈ js, j < arr2.length) →
      SRPairs arr1 arr2 s → i ∉ s.1 →
      ∀ j0 ∈ js, arr2.getD j0 [] = arr1.getD i [] →
        ∃ k ∈ (js.foldl (srStep arr1 arr2 i) s).1, arr1.getD k [] = arr1.getD i []
  | [], _, _, _, _, j0, hj0, _ => absurd hj0 (by simp)
  | j :: js, s, hjs, hpairs, hi1, j0, hj0, hval => by
    rw [List.foldl_cons]
    rcases List.mem_cons.mp hj0 with hj0eq | hj0mem
    · subst hj0eq
      by_cases hj2 : j0 ∈ s.2
      · obtain ⟨k, hk, hkval⟩ := mem_getD_of_mem hj2 0
        have hk1 : k < s.1.length := by
          have := hpairs.1
          omega
        obtain ⟨-, -, hkeq⟩ := hpairs.2 k hk1
        refine ⟨s.1.getD k 0, ?_, ?_⟩
        · exact srFold_mem1 arr1 arr2 i js _
            (srStep_mem1 arr1 arr2 i s j0 (getD_mem_of_lt _ k hk1 0))
        · rw [hkeq, hkval, hval]
      · have hstep : srStep arr1 arr2 i s j0 = (s.1 ++ [i], s.2 ++ [j0]) := by
          unfold srStep
          rw [if_neg (by tauto), if_pos hval.symm]
        refine ⟨i, ?_, rfl⟩
        rw [hstep]
        exact srFold_mem1 arr1 arr2 i js _ (List.mem_append_right _ (by simp))
    · rcases srStep_eq_or arr1 arr2 i s j with he | ⟨he, -, -, -⟩ <;> rw [he]
      · exact srFold_complete arr1 arr2 i hi js s
          (fun j' hj' => hjs j' (by simp [hj'])) hpairs hi1 j0 hj0mem hval
      · refine ⟨i, ?_, rfl⟩
        exact srFold_mem1 arr1 arr2 i js _ (List.mem_append_right _ (by simp))

/-- Completeness of the outer scan: every scanned row of `arr1` that has
an equal row in `arr2` contributes its value to the matched rows. -/
theorem srOuterFold_complete (arr1 arr2 : List (List ℚ)) :
    ∀ (is : List ℕ) (s : List ℕ × List ℕ), (∀ i' ∈ is, i' < arr1.length) →
      SRPairs arr1 arr2 s →
      ∀ i ∈ is, ∀ j0, j0 < arr2.length → arr2.getD j0 [] = arr1.getD i [] →
        ∃ k ∈ (is.foldl (fun s i => srInner arr1 arr2 i s) s).1,
          arr1.getD k [] = arr1.getD i []
  | [], _, _, _, i, hi, _, _, _ => absurd hi (by simp)
  | i' :: is, s, his, hpairs, i, hi, j0, hj0, hval => by
    rw [List.foldl_cons]
    rcases List.mem_cons.mp hi with hieq | himem
    · subst hieq
      by_cases hmem : i ∈ s.1
      · exact ⟨i, srOuter_mem1 arr1 arr2 is _ (srFold_mem1 arr1 arr2 i _ s hmem), rfl⟩
      · obtain ⟨k, hk, hkval⟩ := srFold_complete arr1 arr2 i (his i (by simp))
          (List.range arr2.length) s (fun j hj => List.mem_range.mp hj) hpairs hmem
          j0 (List.mem_range.mpr hj0) hval
        exact ⟨k, srOuter_mem1 arr1 arr2 is _ hk, hkval⟩
    · exact srOuterFold_complete arr1 arr2 is _ (fun i'' hi'' => his i'' (by simp [hi'']))
        (srInner_pairs (his i' (by simp)) hpairs) i himem j0 hj0 hval

/-- The values of the matched rows of `sharedRows` are exactly the row
values present in both matrices. -/
theorem sharedIndices_values_iff (arr1 arr2 : List (List ℚ)) (r : List ℚ) :
    r ∈ (sharedIndices arr1 arr2).1.map (fun i => arr1.getD i []) ↔
      (r ∈ arr1 ∧ r ∈ arr2) := by
  constructor
  · intro hr
    obtain ⟨idx, hidx, hval⟩ := List.mem_map.mp hr
    obtain ⟨k, hk, hkval⟩ := mem_getD_of_mem hidx 0
    obtain ⟨hb1, hb2, hkeq⟩ := (sharedIndices_pairs arr1 arr2).2 k hk
    subst hval
    rw [← hkval]
    exact ⟨getD_mem_of_lt arr1 _ hb1 [], hkeq ▸ getD_mem_of_lt arr2 _ hb2 []⟩
  · rintro ⟨h1, h2⟩
    obtain ⟨i, hi, hival⟩ := mem_getD_of_mem h1 []
    obtain ⟨j0, hj0, hj0val⟩ := mem_getD_of_mem h2 []
    obtain ⟨k, hk, hkval⟩ := srOuterFold_complete arr1 arr2 (List.range arr1.length)
      ([], []) (fun i' hi' => List.mem_range.mp hi')
      ⟨rfl, fun k hk => absurd hk (by simp)⟩ i (List.mem_range.mpr hi)
      j0 hj0 (by rw [hival, hj0val])
    exact List.mem_map.mpr ⟨k, hk, by rw [hkval, hival]⟩

/-- Scanning a matrix against itself matches row `i` with row `i`: from
the state `(range i, range i)`, the inner scan for row `i` skips the
already-matched inner rows below `i`, matches `(i, i)` (a row always
equals itself), and skips the rest. -/
theorem srInner_self (A : List (List ℚ)) (i : ℕ) (hi : i < A.length) :
    srInner A A i (List.range i, List.range i) =
      (List.range (i + 1), List.range (i + 1)) := by
  unfold srInner
  rw [show List.range A.length =
      (List.range (i + 1) ++ (List.range (A.length - (i + 1))).map ((i + 1) + ·)) by
    rw [← List.range_add]
    congr 1
    omega]
  rw [List.foldl_append]
  have h1 : (List.range (i + 1)).foldl (srStep A A i) (List.range i, List.range i) =
      (List.range (i + 1), List.range (i + 1)) := by
    rw [List.range_succ, List.foldl_append]
    rw [srFold_skip2 A A i (List.range i) _ (fun j hj => hj)]
    have hstep : srStep A A i (List.range i, List.range i) i =
        (List.range i ++ [i], List.range i ++ [i]) := by
      unfold srStep
      rw [if_neg (by simp), if_pos rfl]
    simp only [List.foldl_cons, List.foldl_nil, hstep, ← List.range_succ]
  rw [h1]
  exact srFold_skip1 A A i _ _ (by simp)

/-- The index lists of `sharedIndices A A` are both the identity
`[0, ..., m-1]`. -/
theorem sharedIndices_self (A : List (List ℚ)) :
    sharedIndices A A = (List.range A.length, List.range A.length) := by
  suffices h : ∀ i, i ≤ A.length →
      (List.range i).foldl (fun s i' => srInner A A i' s) ([], []) =
        (List.range i, List.range i) from h A.length le_rfl
  intro i
  induction i with
  | zero => intro _; rfl
  | succ n ih =>
    intro hn
    rw [List.range_succ, List.foldl_append, ih (by omega)]
    simp only [List.foldl_cons, List.foldl_nil]
    exact (srInner_self A n (by omega)).trans (by rw [List.range_succ])

/-- Reading every position of a list with `getD` reproduces the list. -/
theorem map_getD_range {α : Type} (l : List α) (d : α) :
    (List.range l.length).map (fun i => l.getD i d) = l := by
  induction l with
  | nil => rfl
  | cons a t ih =>
    rw [List.length_cons, List.range_succ_eq_map, List.map_cons, List.map_map]
    have h : ((fun i => (a :: t).getD i d) ∘ Nat.succ) = fun i => t.getD i d :=
      funext (fun i => rfl)
    rw [h, ih]
    rfl

/-- In the non-degenerate branch, `sharedRows` returns the matched rows
and both index lists. -/
theorem sharedRows_ok_val (arr1 arr2 : List (List ℚ))
    (h1 : ¬(npSizeRows arr1 = 0 ∨ npSizeRows arr2 = 0)) (h2 : numCols arr1 = numCols arr2) :
    sharedRows arr1 arr2 =
      Except.ok ((sharedIndices arr1 arr2).1.map (fun i => arr1.getD i []),
        (sharedIndices arr1 arr2).1, (sharedIndices arr1 arr2).2) := by
  unfold sharedRows
  rw [if_neg h1, if_neg (by simp [h2])]

/-- C8: `sharedRows(A, A)` on a non-empty matrix returns all rows of `A`
with both index lists equal to the identity `0 .. m-1`, and for all `A`,
`B` the set of matched rows of `sharedRows(A, B)` equals that of
`sharedRows(B, A)` (both are the rows present in both matrices). -/
theorem sharedRows_self_identity_and_symm :
    (∀ A : List (List ℚ), npSizeRows A ≠ 0 →
      sharedRows A A = Except.ok (A, List.range A.length, List.range A.length)) ∧
    (∀ (A B : List (List ℚ)) (r : List ℚ),
      (∃ out, sharedRows A B = Except.ok out ∧ r ∈ out.1) ↔
      (∃ out, sharedRows B A = Except.ok out ∧ r ∈ out.1)) := by
  constructor
  · intro A hA
    rw [sharedRows_ok_val A A (by tauto) rfl, sharedIndices_self, map_getD_range]
  · intro A B r
    by_cases hemp : npSizeRows A = 0 ∨ npSizeRows B = 0
    · have e1 : sharedRows A B = Except.ok ([], [], []) := by
        unfold sharedRows
        rw [if_pos hemp]
      have e2 : sharedRows B A = Except.ok ([], [], []) := by
        unfold sharedRows
        rw [if_pos (Or.symm hemp)]
      simp [e1, e2]
    · by_cases hcol : numCols A = numCols B
      · rw [sharedRows_ok_val A B hemp hcol,
          sharedRows_ok_val B A (by tauto) hcol.symm]
        simp only [Except.ok.injEq, exists_eq_left']
        rw [sharedIndices_values_iff, sharedIndices_values_iff]
        exact and_comm
      · have e1 : sharedRows A B =
            Except.error "ValueError: Arrays must have same number of columns." := by
          unfold sharedRows
          rw [if_neg hemp]
          exact if_pos hcol
        have e2 : sharedRows B A =
            Except.error "ValueError: Arrays must have same number of columns." := by
          unfold sharedRows
          rw [if_neg (fun h => hemp (Or.symm h))]
          exact if_pos (fun h => hcol h.symm)
        simp [e1, e2]

/-- Witness for `sharedRows_self_identity_and_symm`: on the non-empty
matrix `[[1, 2]]` the self-intersection is the whole matrix with identity
index lists. -/
theorem sharedRows_self_identity_witness :
    npSizeRows [[(1 : ℚ), 2]] ≠ 0 ∧
    sharedRows [[(1 : ℚ), 2]] [[(1 : ℚ), 2]] =
      Except.ok ([[(1 : ℚ), 2]], List.range (List.length [[(1 : ℚ), 2]]),
        List.range (List.length [[(1 : ℚ), 2]])) :=
  ⟨by decide, sharedRows_self_identity_and_symm.1 [[(1 : ℚ), 2]] (by decide)⟩

/-- Unfolding equation of `npArgmin` on a cons cell. -/
theorem npArgmin_cons (x : ℝ) (xs : List ℝ) :
    npArgmin (x :: xs) = if ∀ y ∈ xs, x ≤ y then 0 else npArgmin xs + 1 := by
  rw [npArgmin]

/-- `np.argmin` of a non-empty list is an in-range index. -/
theorem npArgmin_lt_length (l : List ℝ) (h : l ≠ []) : npArgmin l < l.length := by
  induction l with
  | nil => exact absurd rfl h
  | cons x xs ih =>
    rw [npArgmin_cons]
    split_ifs with hx
    · simp
    · have hxs : xs ≠ [] := by
        rintro rfl
        exact hx (by simp)
      have := ih hxs
      simp only [List.length_cons]
      omega

/-- The entry at `np.argmin` is a lower bound for every entry. -/
theorem npArgmin_le (l : List ℝ) : ∀ i, i < l.length → l.getD (npArgmin l) 0 ≤ l.getD i 0 := by
  induction l with
  | nil =>
    intro i hi
    simp at hi
  | cons x xs ih =>
    intro i hi
    rw [npArgmin_cons]
    split_ifs with hx
    · cases i with
      | zero => simp
      | succ k =>
        simp only [List.getD_cons_zero, List.getD_cons_succ]
        exact hx _ (getD_mem_of_lt xs k (by simpa using hi) 0)
    · push_neg at hx
      obtain ⟨y, hy, hyx⟩ := hx
      cases i with
      | zero =>
        simp only [List.getD_cons_succ, List.getD_cons_zero]
        obtain ⟨k, hk, hkval⟩ := mem_getD_of_mem hy 0
        calc xs.getD (npArgmin xs) 0 ≤ xs.getD k 0 := ih k hk
          _ = y := hkval
          _ ≤ x := le_of_lt hyx
      | succ k =>
        simp only [List.getD_cons_succ]
        exact ih k (by simpa using hi)

/-- `getD` commutes with `map` at an in-range index, for any defaults. -/
theorem getD_map_of_lt {α β : Type} (f : α → β) (l : List α) (i : ℕ) (h : i < l.length)
    (d : β) (d' : α) : (l.map f).getD i d = f (l.getD i d') := by
  rw [List.getD_eq_getElem _ _ (by simpa using h), List.getD_eq_getElem _ _ h]
  simp

/-- C6 (amended): for non-empty query and reference sets, `getLAinsert`
returns a SINGLE point, a member of the QUERY set `inserts`, whose
distance to its nearest reference point is minimal among all query
points (first such point in query order). -/
theorem getLAinsert_min (inserts sep_points : List Pt) (h1 : inserts ≠ [])
    (_h2 : sep_points ≠ []) :
    getLAinsert inserts sep_points ∈ inserts ∧
    ∀ q ∈ inserts, kdQueryDist sep_points (getLAinsert inserts sep_points) ≤
      kdQueryDist sep_points q := by
  have hmapne : inserts.map (kdQueryDist sep_points) ≠ [] := by
    simpa using h1
  have hlt : npArgmin (inserts.map (kdQueryDist sep_points)) < inserts.length := by
    have := npArgmin_lt_length _ hmapne
    simpa using this
  constructor
  · exact getD_mem_of_lt inserts _ hlt (0, 0)
  · intro q hq
    obtain ⟨k, hk, hkval⟩ := mem_getD_of_mem hq (0, 0)
    have hle := npArgmin_le (inserts.map (kdQueryDist sep_points)) k (by simpa using hk)
    unfold getLAinsert
    rw [← hkval,
      ← getD_map_of_lt (kdQueryDist sep_points) inserts _ hlt 0 (0, 0),
      ← getD_map_of_lt (kdQueryDist sep_points) inserts k hk 0 (0, 0)]
    exact hle

/-- Witness for `getLAinsert_min` at the concrete query set
`[(0,0), (2,0)]` and reference set `[(3,0)]`. -/
theorem getLAinsert_min_witness :
    ([((0 : ℝ), (0 : ℝ)), (2, 0)] ≠ ([] : List Pt)) ∧
    ([((3 : ℝ), (0 : ℝ))] ≠ ([] : List Pt)) ∧
    (getLAinsert [((0 : ℝ), (0 : ℝ)), (2, 0)] [((3 : ℝ), (0 : ℝ))] ∈
        [((0 : ℝ), (0 : ℝ)), (2, 0)] ∧
      ∀ q ∈ [((0 : ℝ), (0 : ℝ)), (2, 0)],
        kdQueryDist [((3 : ℝ), (0 : ℝ))]
            (getLAinsert [((0 : ℝ), (0 : ℝ)), (2, 0)] [((3 : ℝ), (0 : ℝ))]) ≤
          kdQueryDist [((3 : ℝ), (0 : ℝ))] q) :=
  ⟨by simp, by simp,
    getLAinsert_min [((0 : ℝ), (0 : ℝ)), (2, 0)] [((3 : ℝ), (0 : ℝ))] (by simp) (by simp)⟩

/-- Distance between two points on the x-axis is the absolute coordinate
difference. -/
theorem normDiff_horiz (a b : ℝ) : normDiff (a, 0) (b, 0) = |a - b| := by
  unfold normDiff
  norm_num [Real.sqrt_sq_eq_abs]

/-- C6 (counterexample): the claim says `getLAinsert` returns, for each
query point, the nearest point of the reference set.  On the query set
`[(0,0), (2,0)]` with reference set `[(3,0)]` the function returns the
single point `(2,0)`, which is a member of the query set and is NOT a
point of the reference set (every query point's nearest reference point
is `(3,0)`). -/
theorem getLAinsert_not_reference_point :
    getLAinsert [((0 : ℝ), (0 : ℝ)), (2, 0)] [((3 : ℝ), (0 : ℝ))] = (2, 0) ∧
    getLAinsert [((0 : ℝ), (0 : ℝ)), (2, 0)] [((3 : ℝ), (0 : ℝ))] ∉
      [((3 : ℝ), (0 : ℝ))] := by
  have hk0 : kdQueryDist [((3 : ℝ), (0 : ℝ))] (0, 0) = 3 := by
    simp only [kdQueryDist, List.map_cons, List.map_nil, listMinD, List.foldl_nil,
      normDiff_horiz]
    norm_num
  have hk2 : kdQueryDist [((3 : ℝ), (0 : ℝ))] (2, 0) = 1 := by
    simp only [kdQueryDist, List.map_cons, List.map_nil, listMinD, List.foldl_nil,
      normDiff_horiz]
    norm_num
  have hmap : ([((0 : ℝ), (0 : ℝ)), (2, 0)]).map (kdQueryDist [((3 : ℝ), (0 : ℝ))]) =
      [3, 1] := by
    rw [List.map_cons, List.map_cons, List.map_nil, hk0, hk2]
  have harg : npArgmin [(3 : ℝ), 1] = 1 := by
    rw [npArgmin_cons, if_neg (by norm_num), npArgmin_cons, if_pos (by simp)]
  have hval : getLAinsert [((0 : ℝ), (0 : ℝ)), (2, 0)] [((3 : ℝ), (0 : ℝ))] = (2, 0) := by
    unfold getLAinsert
    rw [hmap, harg]
    rfl
  refine ⟨hval, ?_⟩
  rw [hval]
  simp only [List.mem_singleton, Prod.mk.injEq, not_and]
  intro h
  norm_num at h

/-- The first component of an `enum` entry is an in-range position. -/
theorem mem_enum_fst_lt {α : Type} {l : List α} {p : ℕ × α} (h : p ∈ l.enum) :
    p.1 < l.length := by
  obtain ⟨i, x⟩ := p
  rw [List.mk_mem_enum_iff_getElem?] at h
  obtain ⟨hlt, -⟩ := List.getElem?_eq_some.mp h
  exact hlt

/-- `pointDistances` returns one distance per point. -/
theorem pointDistances_length (points : List Pt) :
    (pointDistances points).length = points.length := by
  simp [pointDistances]

/-- Every flagged index of `removeFarPoints` is an in-range position of
the distance list, i.e. below the number of points. -/
theorem farIndices_lt (points : List Pt) :
    ∀ k ∈ farIndices points, k < points.length := by
  intro k hk
  obtain ⟨p, hp, hpk⟩ := List.mem_map.mp hk
  have := mem_enum_fst_lt (List.mem_of_mem_filter hp)
  rw [pointDistances_length] at this
  omega

/-- The `indicesToRemove` loop never collects index 0 when the last
flagged index differs from `np.size(points) - 1`: the wrap branch is the
only one that can append `far[i] = 0`, and the adjacency branch appends
`far[i] + 1 ≥ 1`. -/
theorem farLoopRemove_zero_free (far : List ℕ) (sz : ℕ)
    (hlast : ∀ k, far.getLast? = some k → k ≠ sz - 1) :
    0 ∉ farLoopRemove far sz := by
  unfold farLoopRemove
  suffices h : ∀ (js : List ℕ) (acc : List ℕ), 0 ∉ acc →
      0 ∉ js.foldl (farStep far sz) acc from
    h _ [] (by simp)
  intro js
  induction js with
  | nil => exact fun acc h => h
  | cons j js ih =>
    intro acc hacc
    rw [List.foldl_cons]
    refine ih _ ?_
    unfold farStep
    split_ifs with h1 h2
    · exact absurd rfl (hlast (sz - 1) h1.2)
    · simp only [List.mem_append, List.mem_singleton, not_or]
      refine ⟨hacc, ?_⟩
      omega
    · exact hacc

/-- `deleteHelper` keeps the head of the list when index 0 is not
removed. -/
theorem deleteHelper_head {α : Type} (l : List α) (indices : List ℕ) (h : 0 ∉ indices) :
    (deleteHelper l indices).head? = l.head? := by
  cases l with
  | nil => rfl
  | cons a t =>
    unfold deleteHelper
    rw [if_neg (by simp), List.enum_cons, List.filter_cons_of_pos (by simp [h])]
    rfl

/-- C9: `removeFarPoints` never removes the first point of its input —
the head of the output is always the head of the input.  With at most two
points the input is returned unchanged; otherwise the wrap branch of the
removal loop (the only one that could collect index 0) is unreachable,
because it compares the last flagged distance index (< m) with
`np.size(points) - 1 = 2m - 1`, and the adjacency branch only collects
indices ≥ 1. -/
theorem removeFarPoints_preserves_head (points : List Pt) :
    (removeFarPoints points).head? = points.head? := by
  unfold removeFarPoints
  split_ifs with h1 h2
  · rfl
  · apply deleteHelper_head
    apply farLoopRemove_zero_free
    intro k hk
    have hkmem : k ∈ farIndices points := List.mem_of_getLast?_eq_some hk
    have hklt := farIndices_lt points k hkmem
    simp only [npSize]
    omega
  · rfl

/-- The cyclic distances of the C2 scenario points:
`[1, 1, sqrt 101, sqrt 109]`. -/
theorem c2_dists : pointDistances c2pts = [1, 1, Real.sqrt 101, Real.sqrt 109] := by
  have h : pointDistances c2pts =
      [normDiff (1, 0) (0, 0), normDiff (2, 0) (1, 0), normDiff (3, 10) (2, 0),
        normDiff (3, 10) (0, 0)] := rfl
  rw [h]
  unfold normDiff
  norm_num

/-- No cyclic distance of the C2 scenario points exceeds the
`mean + 3 * std` threshold: the mean is at least `5.5`, the sample
standard deviation is at least `3.6`, so the threshold is at least `16.3`
while the largest gap is `sqrt 109 ≤ 11`. -/
theorem c2_upper_bound : ∀ d ∈ pointDistances c2pts, d ≤ rvUpperThreshold c2pts := by
  have h100 : Real.sqrt 100 = 10 := by
    rw [show (100 : ℝ) = 10 ^ 2 by norm_num, Real.sqrt_sq (by norm_num)]
  have h121 : Real.sqrt 121 = 11 := by
    rw [show (121 : ℝ) = 11 ^ 2 by norm_num, Real.sqrt_sq (by norm_num)]
  have ha10 : (10 : ℝ) ≤ Real.sqrt 101 := by
    rw [← h100]
    exact Real.sqrt_le_sqrt (by norm_num)
  have hb10 : (10 : ℝ) ≤ Real.sqrt 109 := by
    rw [← h100]
    exact Real.sqrt_le_sqrt (by norm_num)
  have ha11 : Real.sqrt 101 ≤ 11 := by
    rw [← h121]
    exact Real.sqrt_le_sqrt (by norm_num)
  have hb11 : Real.sqrt 109 ≤ 11 := by
    rw [← h121]
    exact Real.sqrt_le_sqrt (by norm_num)
  have hmean : npMean [1, 1, Real.sqrt 101, Real.sqrt 109] =
      (2 + Real.sqrt 101 + Real.sqrt 109) / 4 := by
    simp [npMean]
    ring
  have hm : (11 / 2 : ℝ) ≤ (2 + Real.sqrt 101 + Real.sqrt 109) / 4 := by
    linarith
  have hVeq : npVar [1, 1, Real.sqrt 101, Real.sqrt 109] 1 =
      ((1 - (2 + Real.sqrt 101 + Real.sqrt 109) / 4) ^ 2 * 2 +
        (Real.sqrt 101 - (2 + Real.sqrt 101 + Real.sqrt 109) / 4) ^ 2 +
        (Real.sqrt 109 - (2 + Real.sqrt 101 + Real.sqrt 109) / 4) ^ 2) / 3 := by
    simp [npVar, hmean]
    ring
  have hVlb : ((18 : ℝ) / 5) ^ 2 ≤ npVar [1, 1, Real.sqrt 101, Real.sqrt 109] 1 := by
    rw [hVeq]
    nlinarith [sq_nonneg (Real.sqrt 101 - (2 + Real.sqrt 101 + Real.sqrt 109) / 4),
      sq_nonneg (Real.sqrt 109 - (2 + Real.sqrt 101 + Real.sqrt 109) / 4),
      mul_nonneg
        (by linarith : (0 : ℝ) ≤ (2 + Real.sqrt 101 + Real.sqrt 109) / 4 - 11 / 2)
        (by linarith : (0 : ℝ) ≤ (2 + Real.sqrt 101 + Real.sqrt 109) / 4 + 7 / 2)]
  have hstd : (18 / 5 : ℝ) ≤ npStd [1, 1, Real.sqrt 101, Real.sqrt 109] 1 := by
    unfold npStd
    exact (Real.le_sqrt (by norm_num) (le_trans (by norm_num) hVlb)).mpr hVlb
  intro d hd
  rw [c2_dists] at hd
  unfold rvUpperThreshold
  rw [c2_dists, hmean]
  simp only [List.mem_cons, List.mem_singleton, List.not_mem_nil, or_false] at hd
  rcases hd with rfl | rfl | rfl | rfl
  · linarith
  · linarith
  · linarith
  · linarith

/-- The C2 scenario triggers no gap detection at all:
`getRVinsertIndices` returns the empty array because no distance exceeds
the threshold. -/
theorem c2_eval_empty : getRVinsertIndices c2pts = [] := by
  have H : ¬∃ d ∈ pointDistances c2pts, d > rvUpperThreshold c2pts := by
    push_neg
    exact c2_upper_bound
  unfold getRVinsertIndices
  rw [if_neg H]

/-- C2 (amended): `detectInsertionGap` applied to the cyclic points
`[(0,0), (1,0), (2,0), (3,10)]` returns the EMPTY result: the largest gap
`sqrt 109 ≈ 10.44` does not exceed the `mean + 3 * sample-std` threshold
(≈ 21.6), so no insertion gap is detected. -/
theorem getRVinsertIndices_example_empty : getRVinsertIndices c2pts = [] :=
  c2_eval_empty

/-- C2 (counterexample): the claim says `detectInsertionGap` on
`[(0,0), (1,0), (2,0), (3,10)]` returns the index pair `(2, 3)`; it does
not (the result is empty). -/
theorem getRVinsertIndices_spec_example_false : getRVinsertIndices c2pts ≠ [2, 3] := by
  rw [c2_eval_empty]
  simp

/-- The cyclic distances of the 20 collinear C4 points:
`[11, 1, ..., 1, 11]` (the first gap and the wrap-around gap are 11, the
18 interior gaps are 1). -/
theorem c4_dists : pointDistances c4pts = [11, 1, 1, 1, 1, 1, 1, 1, 1, 1, 1, 1, 1, 1, 1, 1, 1, 1, 1, 11] := by
  have h121 : Real.sqrt 121 = 11 := by
    rw [show (121 : ℝ) = 11 ^ 2 by norm_num, Real.sqrt_sq (by norm_num)]
  have h : pointDistances c4pts =
      [normDiff (11, 0) (0, 0),
        normDiff (12, 0) (11, 0),
        normDiff (13, 0) (12, 0),
        normDiff (14, 0) (13, 0),
        normDiff (15, 0) (14, 0),
        normDiff (16, 0) (15, 0),
        normDiff (17, 0) (16, 0),
        normDiff (18, 0) (17, 0),
        normDiff (19, 0) (18, 0),
        normDiff (20, 0) (19, 0),
        normDiff (19, 0) (20, 0),
        normDiff (18, 0) (19, 0),
        normDiff (17, 0) (18, 0),
        normDiff (16, 0) (17, 0),
        normDiff (15, 0) (16, 0),
        normDiff (14, 0) (15, 0),
        normDiff (13, 0) (14, 0),
        normDiff (12, 0) (13, 0),
        normDiff (11, 0) (12, 0),
        normDiff (11, 0) (0, 0)] := rfl
  rw [h]
  unfold normDiff
  norm_num [h121]

/-- The `removeFarPoints` threshold of the C4 points is exactly 8: the
mean distance is 2 and the population standard deviation is 3. -/
theorem c4_thr : farThreshold c4pts = 8 := by
  have h9 : Real.sqrt 9 = 3 := by
    rw [show (9 : ℝ) = 3 ^ 2 by norm_num, Real.sqrt_sq (by norm_num)]
  have hmean : npMean (pointDistances c4pts) = 2 := by
    rw [c4_dists]
    simp [npMean]
    norm_num
  have hvar : npVar (pointDistances c4pts) 0 = 9 := by
    unfold npVar
    rw [hmean, c4_dists]
    simp
    norm_num
  have hstd : npStd (pointDistances c4pts) 0 = 3 := by
    unfold npStd
    rw [hvar, h9]
  unfold farThreshold
  rw [hmean, hstd]
  norm_num

/-- The flagged distance indices of the C4 points are exactly `[0, 19]`:
only the first gap and the wrap-around gap (both 11) exceed the
threshold 8. -/
theorem c4_far : farIndices c4pts = [0, 19] := by
  unfold farIndices
  simp only [c4_dists, c4_thr]
  norm_num [List.enum, List.enumFrom, List.filter_cons, decide_eq_true_eq]

/-- The removal loop of `removeFarPoints` collects NOTHING for the C4
points: at loop counter 0 the wrap branch fails because the last flagged
index 19 differs from `np.size(points) - 1 = 39`, and `19 - 0 ≠ 1` fails
the adjacency branch. -/
theorem c4_loop : farLoopRemove [0, 19] (npSize c4pts) = [] := rfl

/-- `deleteHelper` with no indices removes nothing. -/
theorem deleteHelper_nil {α : Type} (l : List α) : deleteHelper l [] = l := by
  unfold deleteHelper
  split_ifs with h
  · rfl
  · have h1 : l.enum.filter (fun p => decide (p.1 ∉ ([] : List ℕ))) = l.enum := by
      apply List.filter_eq_self.mpr
      intro p _
      simp
    rw [h1, List.enum, List.enumFrom_map_snd]

/-- `removeFarPoints` returns the C4 points unchanged. -/
theorem c4_unchanged : removeFarPoints c4pts = c4pts := by
  unfold removeFarPoints
  rw [if_neg (by decide), if_pos (by rw [c4_far]; norm_num), c4_far, c4_loop,
    deleteHelper_nil]

/-- C4: the claim says a flagged run wrapping from the last distance
index back to index 0 removes point 0.  On the 20 collinear C4 points the
flagged indices are exactly `[0, 19]` — a wrapping run (index 0 and the
last distance index 19, so point 0 is far from both its neighbours) —
yet `removeFarPoints` removes nothing: its wrap test compares the last
flagged index 19 with `np.size(oldPoints) - 1 = 39`, the total element
count of the `20 x 2` array minus one, instead of the row count minus
one, so it can never fire. -/
theorem removeFarPoints_wrap_not_removed :
    farIndices c4pts = [0, 19] ∧ removeFarPoints c4pts = c4pts :=
  ⟨c4_far, c4_unchanged⟩

/-- C3: the claim says `calcApex` returns the point of `setA` — after
all-zero rows are removed from both sets — that achieves the global
minimum pairwise distance.  On `epiPts1 = [(0,0), (5,0)]` and
`epiPts2 = [(5,0)]` the unique minimising point of the filtered `setA` is
`(5,0)` (at distance 0), but the function indexes the UNFILTERED
`epiPts1` with the row index computed over the filtered set and returns
the all-zero row `(0,0)`, which is not even a member of the filtered
`setA`. -/
theorem calcApex_zero_row_returned :
    calcApex [((0 : ℝ), (0 : ℝ)), (5, 0)] [((5 : ℝ), (0 : ℝ))] = (0, 0) ∧
    ((0 : ℝ), (0 : ℝ)) ∉ removeZerorows [((0 : ℝ), (0 : ℝ)), (5, 0)] := by
  have hz1 : removeZerorows [((0 : ℝ), (0 : ℝ)), (5, 0)] = [((5 : ℝ), (0 : ℝ))] := by
    unfold removeZerorows
    norm_num [List.filter_cons, decide_eq_true_eq]
  have hz2 : removeZerorows [((5 : ℝ), (0 : ℝ))] = [((5 : ℝ), (0 : ℝ))] := by
    unfold removeZerorows
    norm_num [List.filter_cons, decide_eq_true_eq]
  have hflat : cdistFlat [((5 : ℝ), (0 : ℝ))] [((5 : ℝ), (0 : ℝ))] = [0] := by
    unfold cdistFlat
    norm_num [normDiff]
  have harg : npArgmin [(0 : ℝ)] = 0 := by
    rw [npArgmin_cons, if_pos (by simp)]
  constructor
  · unfold calcApex
    rw [hz1, hz2, hflat, harg]
    rfl
  · rw [hz1]
    simp only [List.mem_singleton, Prod.mk.injEq, not_and]
    intro h
    norm_num at h
